import Mathlib

/-!
Verification of the neuroflow interval tracker core.

The development shallowly embeds the interval state machine
(src/tracker.rs), the aggregation layer (src/stats.rs) and the
persistence gateway (src/storage.rs) of the neuroflow repository.
Timestamps (`chrono::DateTime<Utc>`) are modelled as integers counting
nanoseconds since the Unix epoch; `chrono::Duration` values are likewise
integer nanosecond counts; `f64` idle-time samples are modelled as the
rational numbers they denote.
-/

namespace Neflo

/-- Classification of a time interval (src/models.rs, `IntervalType`). -/
inductive IntervalType where
  | Focus
  | Idle
deriving DecidableEq, Repr

/-- A logged time interval (src/models.rs, `Interval`).  The `start` and
`end` timestamps are nanosecond counts since the Unix epoch, the precision
of chrono's `DateTime<Utc>`. -/
structure Interval where
  start : ℤ
  «end» : ℤ
  kind : IntervalType
deriving DecidableEq, Repr

/-- The persisted interval log (src/models.rs, `Database`). -/
structure Database where
  intervals : List Interval
deriving DecidableEq, Repr

/-- chrono `Duration::seconds`, as a nanosecond count. -/
def Duration.seconds (s : ℤ) : ℤ := s * 1000000000

/-- chrono `Duration::days`, as a nanosecond count. -/
def Duration.days (d : ℤ) : ℤ := d * 86400000000000

/-- Rust's `as i64` cast on an `f64`, which truncates toward zero
(`Int.tdiv` is truncating division).  The `f64` operand is modelled as
the rational it denotes; saturation at the `i64` bounds and NaN, which
no claim involves, are not modelled. -/
def f64toI64 (q : ℚ) : ℤ := Int.tdiv q.num q.den

/-- Modelled from the spec: `Interval::new_at`, used throughout
src/tracker.rs, is not among the provided sources (src/models.rs defines
only `Interval::new`).  Spec section 4.1 step 2 describes the appended
interval as a zero-length interval with start = end = now and the given
kind, which the repository's own tests (test_update_db_initial) also pin
down. -/
def Interval.new_at (kind : IntervalType) (now : ℤ) : Interval :=
  { start := now, «end» := now, kind := kind }

/-- The tracker session state (src/tracker.rs, `Tracker`).  The storage
handle and the scheduling-window fields (start_time, end_time, duration,
run_start_time, session_ended_saved), which no claim touches, are
omitted; `threshold_secs` is the `f64` threshold modelled as a rational
(it equals `(threshold_mins * 60) as f64`, hence is nonnegative in every
reachable state). -/
structure Tracker where
  threshold_secs : ℚ
  db : Database
  last_kind_seen : Option IntervalType
  state_start : ℤ
  last_save : ℤ
deriving DecidableEq, Repr

/-- The method `Tracker::update_db` (src/tracker.rs lines 125-178): the interval
state machine step.  The Rust method mutates only `self.db`, so it is
modelled as a function of the database.  The closing `retain` keeps the
intervals with `end >= start`; the empty-log and gap branches return
early, before that cleanup, exactly as in the source. -/
def update_db (db : Database) (current_kind : IntervalType) (idle_time : ℚ)
    (now : ℤ) : Database :=
  let gap_threshold := Duration.seconds 10
  if h : db.intervals = [] then
    ⟨[Interval.new_at current_kind now]⟩
  else
    let last := db.intervals.getLast h
    if gap_threshold < now - last.«end» then
      ⟨db.intervals ++ [Interval.new_at current_kind now]⟩
    else
      let init := db.intervals.dropLast
      let intervals :=
        if last.kind = current_kind then
          init ++ [{ last with «end» := now }]
        else if current_kind = IntervalType.Idle then
          -- Focus -> Idle
          let idle_start := now - Duration.seconds (f64toI64 idle_time)
          if idle_start ≤ last.start then
            init ++ [{ last with kind := IntervalType.Idle, «end» := now }]
          else
            -- Split the interval
            let new_interval := { Interval.new_at IntervalType.Idle now with
                                  start := idle_start, «end» := now }
            init ++ [{ last with «end» := idle_start }, new_interval]
        else
          -- Idle -> Focus
          init ++ [{ last with «end» := now }, Interval.new_at IntervalType.Focus now]
      ⟨intervals.filter fun i => decide (i.start ≤ i.«end»)⟩

/-- The method `Tracker::prune_old_data` (src/tracker.rs lines 120-123).  `wall` is
the instant returned by the `Utc::now()` call inside the method. -/
def prune_old_data (db : Database) (wall : ℤ) : Database :=
  let thirty_days_ago := wall - Duration.days 30
  ⟨db.intervals.filter fun i => decide (thirty_days_ago < i.«end»)⟩

/-- The method `Tracker::tick` (src/tracker.rs lines 86-112).  Persistence is
modelled by also returning the list of database snapshots handed to
`Storage::save`, in call order; saves are assumed to succeed here (the
failing-save path is modelled separately for `reset`).  `wall` is the
wall-clock instant observed by the `Utc::now()` call inside
`prune_old_data`. -/
def Tracker.tick (tr : Tracker) (idle_time : ℚ) (now wall : ℤ) :
    Tracker × List Database :=
  let current_kind := if tr.threshold_secs ≤ idle_time then IntervalType.Idle
                      else IntervalType.Focus
  let db1 := update_db tr.db current_kind idle_time now
  let step1 :=
    if some current_kind ≠ tr.last_kind_seen then
      ({ tr with db := db1, state_start := now,
                 last_kind_seen := some current_kind, last_save := now }, [db1])
    else
      ({ tr with db := db1 }, ([] : List Database))
  if Duration.seconds 30 < now - step1.1.last_save then
    let db2 := prune_old_data step1.1.db wall
    ({ step1.1 with db := db2, last_save := now }, step1.2 ++ [db2])
  else
    step1

/-- A finite sequence of `tick` calls; each sample carries the idle-time
reading, the tick's `now`, and the wall-clock instant seen by a pruning
pass during that tick. -/
def Tracker.run_ticks (tr : Tracker) (samples : List (ℚ × ℤ × ℤ)) : Tracker :=
  samples.foldl (fun t s => (t.tick s.1 s.2.1 s.2.2).1) tr

/-- The method `Tracker::reset` (src/tracker.rs lines 114-118).  `save_result`
injects the outcome of the `Storage::save` call; the triple returned is
(tracker state after the call, database snapshot handed to save, result
propagated to the caller). -/
def Tracker.reset (tr : Tracker) (save_result : Except String Unit) :
    Tracker × Database × Except String Unit :=
  let tr1 := { tr with db := ⟨[]⟩ }
  (tr1, tr1.db, save_result)

/-- Adjacent ordering of two intervals: the first ends no later than the
second starts. -/
def Abuts (a b : Interval) : Prop := a.«end» ≤ b.start

/-- Two intervals overlap when their intersection has nonempty interior
(sharing a single boundary point is not an overlap). -/
def Interval.Overlaps (a b : Interval) : Prop :=
  max a.start b.start < min a.«end» b.«end»

instance : DecidableRel Abuts := fun a b => inferInstanceAs (Decidable (_ ≤ _))

instance (a b : Interval) : Decidable (a.Overlaps b) :=
  inferInstanceAs (Decidable (_ < _))

/-- The interval-log invariant maintained by the state machine, relative
to a time bound `t`: intervals are pairwise ordered end-before-start,
every interval has nonnegative duration, and every `end` is at most `t`. -/
def LogInv (l : List Interval) (t : ℤ) : Prop :=
  l.Pairwise Abuts ∧ (∀ i ∈ l, i.start ≤ i.«end») ∧ (∀ i ∈ l, i.«end» ≤ t)

instance (l : List Interval) (t : ℤ) : Decidable (LogInv l t) :=
  inferInstanceAs (Decidable (_ ∧ _ ∧ _))

/-- Tick times strictly increase and consecutive gaps are at most 10
seconds, starting from a base instant. -/
def TimesOk : ℤ → List (ℚ × ℤ × ℤ) → Prop
  | _, [] => True
  | t, s :: rest => t < s.2.1 ∧ s.2.1 - t ≤ Duration.seconds 10 ∧ TimesOk s.2.1 rest

instance TimesOk.dec : (t : ℤ) → (l : List (ℚ × ℤ × ℤ)) → Decidable (TimesOk t l)
  | _, [] => .isTrue trivial
  | t, s :: rest =>
    have := TimesOk.dec s.2.1 rest
    inferInstanceAs (Decidable (_ ∧ _ ∧ _))

lemma LogInv.sublist {l l' : List Interval} {t : ℤ} (h : LogInv l t)
    (hs : List.Sublist l' l) : LogInv l' t := by
  obtain ⟨h1, h2, h3⟩ := h
  exact ⟨h1.sublist hs, fun i hi => h2 i (hs.subset hi),
         fun i hi => h3 i (hs.subset hi)⟩

lemma LogInv.mono {l : List Interval} {t t' : ℤ} (h : LogInv l t)
    (ht : t ≤ t') : LogInv l t' := by
  obtain ⟨h1, h2, h3⟩ := h
  exact ⟨h1, h2, fun i hi => le_trans (h3 i hi) ht⟩

lemma f64toI64_nonneg {q : ℚ} (h : 0 ≤ q) : 0 ≤ f64toI64 q :=
  Int.tdiv_nonneg (Rat.num_nonneg.mpr h) (Int.ofNat_nonneg _)

/-- Replacing the final interval of an invariant-satisfying log by a
short, ordered tail starting no earlier than it preserves the invariant
at the later bound `now`. -/
lemma LogInv.append_tail {init : List Interval} {last : Interval} {t now : ℤ}
    {tail : List Interval}
    (hpw : init.Pairwise Abuts) (habut : ∀ a ∈ init, Abuts a last)
    (hwf : ∀ a ∈ init, a.start ≤ a.«end») (hend : ∀ a ∈ init, a.«end» ≤ t)
    (htn : t < now)
    (htail : tail.Pairwise Abuts) (htailstart : ∀ b ∈ tail, last.start ≤ b.start)
    (htailwf : ∀ b ∈ tail, b.start ≤ b.«end») (htailend : ∀ b ∈ tail, b.«end» ≤ now) :
    LogInv (init ++ tail) now := by
  refine ⟨?_, ?_, ?_⟩
  · rw [List.pairwise_append]
    refine ⟨hpw, htail, ?_⟩
    intro a ha b hb
    exact le_trans (habut a ha) (htailstart b hb)
  · intro i hi
    rcases List.mem_append.mp hi with hi | hi
    · exact hwf i hi
    · exact htailwf i hi
  · intro i hi
    rcases List.mem_append.mp hi with hi | hi
    · exact le_of_lt (lt_of_le_of_lt (hend i hi) htn)
    · exact htailend i hi

/-- One `update_db` step preserves the log invariant, advancing the time
bound to `now`, provided an Idle classification comes with a nonnegative
idle reading. -/
lemma update_db_inv {db : Database} {ck : IntervalType} {idle : ℚ} {now t : ℤ}
    (hinv : LogInv db.intervals t) (hnow : t < now)
    (hidle : ck = IntervalType.Idle → 0 ≤ idle) :
    LogInv (update_db db ck idle now).intervals now := by
  unfold update_db
  by_cases h : db.intervals = []
  · simp only [dif_pos h]
    refine ⟨?_, ?_, ?_⟩ <;> simp [Interval.new_at]
  · simp only [dif_neg h]
    obtain ⟨hpw, hwf, hend⟩ := hinv
    have hsplit : db.intervals.dropLast ++ [db.intervals.getLast h] = db.intervals :=
      List.dropLast_append_getLast h
    have hmemlast : db.intervals.getLast h ∈ db.intervals := List.getLast_mem h
    have hinitpw : db.intervals.dropLast.Pairwise Abuts :=
      hpw.sublist (List.dropLast_sublist _)
    have hinitabut : ∀ a ∈ db.intervals.dropLast, Abuts a (db.intervals.getLast h) := by
      intro a ha
      have hp := hpw
      rw [← hsplit, List.pairwise_append] at hp
      exact hp.2.2 a ha _ (List.mem_singleton_self _)
    have hinitwf : ∀ a ∈ db.intervals.dropLast, a.start ≤ a.«end» :=
      fun a ha => hwf a ((List.dropLast_sublist _).subset ha)
    have hinitend : ∀ a ∈ db.intervals.dropLast, a.«end» ≤ t :=
      fun a ha => hend a ((List.dropLast_sublist _).subset ha)
    have hlastwf : (db.intervals.getLast h).start ≤ (db.intervals.getLast h).«end» :=
      hwf _ hmemlast
    have hlastend : (db.intervals.getLast h).«end» ≤ t := hend _ hmemlast
    have hlaststartt : (db.intervals.getLast h).start ≤ t := le_trans hlastwf hlastend
    by_cases hgap : Duration.seconds 10 < now - (db.intervals.getLast h).«end»
    · simp only [if_pos hgap]
      have := @LogInv.append_tail db.intervals (Interval.new_at ck now) t now
        [Interval.new_at ck now] hpw
        (fun a ha => le_of_lt (lt_of_le_of_lt (hend a ha) hnow))
        hwf hend hnow (List.pairwise_singleton _ _)
        (by intro b hb; rw [List.mem_singleton] at hb; subst hb; exact le_refl _)
        (by intro b hb; rw [List.mem_singleton] at hb; subst hb; exact le_refl _)
        (by intro b hb; rw [List.mem_singleton] at hb; subst hb; exact le_refl _)
      exact this
    · simp only [if_neg hgap]
      refine LogInv.sublist ?_ (List.filter_sublist _)
      by_cases hkind : (db.intervals.getLast h).kind = ck
      · simp only [if_pos hkind]
        refine LogInv.append_tail hinitpw hinitabut hinitwf hinitend hnow
          (List.pairwise_singleton _ _) ?_ ?_ ?_ <;>
          (intro b hb; rw [List.mem_singleton] at hb; subst hb)
        · exact le_refl _
        · exact le_of_lt (lt_of_le_of_lt hlaststartt hnow)
        · exact le_refl _
      · simp only [if_neg hkind]
        by_cases hck : ck = IntervalType.Idle
        · simp only [if_pos hck]
          by_cases hback : now - Duration.seconds (f64toI64 idle) ≤
              (db.intervals.getLast h).start
          · simp only [if_pos hback]
            refine LogInv.append_tail hinitpw hinitabut hinitwf hinitend hnow
              (List.pairwise_singleton _ _) ?_ ?_ ?_ <;>
              (intro b hb; rw [List.mem_singleton] at hb; subst hb)
            · exact le_refl _
            · exact le_of_lt (lt_of_le_of_lt hlaststartt hnow)
            · exact le_refl _
          · simp only [if_neg hback]
            push_neg at hback
            have hidle0 : 0 ≤ f64toI64 idle := f64toI64_nonneg (hidle hck)
            have hsec : 0 ≤ Duration.seconds (f64toI64 idle) :=
              mul_nonneg hidle0 (by norm_num)
            have hisnow : now - Duration.seconds (f64toI64 idle) ≤ now := by omega
            refine LogInv.append_tail hinitpw hinitabut hinitwf hinitend hnow
              ?_ ?_ ?_ ?_
            · refine List.pairwise_cons.mpr ⟨?_, List.pairwise_singleton _ _⟩
              intro b hb
              rw [List.mem_singleton] at hb
              subst hb
              exact le_refl _
            · intro b hb
              rcases List.mem_cons.mp hb with hb | hb
              · subst hb; exact le_refl _
              · rw [List.mem_singleton] at hb; subst hb
                exact le_of_lt hback
            · intro b hb
              rcases List.mem_cons.mp hb with hb | hb
              · subst hb; exact le_of_lt hback
              · rw [List.mem_singleton] at hb; subst hb; exact hisnow
            · intro b hb
              rcases List.mem_cons.mp hb with hb | hb
              · subst hb; exact hisnow
              · rw [List.mem_singleton] at hb; subst hb; exact le_refl _
        · simp only [if_neg hck]
          have hstartnow : (db.intervals.getLast h).start ≤ now :=
            le_of_lt (lt_of_le_of_lt hlaststartt hnow)
          refine LogInv.append_tail hinitpw hinitabut hinitwf hinitend hnow
            ?_ ?_ ?_ ?_
          · refine List.pairwise_cons.mpr ⟨?_, List.pairwise_singleton _ _⟩
            intro b hb
            rw [List.mem_singleton] at hb
            subst hb
            exact le_refl _
          · intro b hb
            rcases List.mem_cons.mp hb with hb | hb
            · subst hb; exact le_refl _
            · rw [List.mem_singleton] at hb; subst hb; exact hstartnow
          · intro b hb
            rcases List.mem_cons.mp hb with hb | hb
            · subst hb; exact hstartnow
            · rw [List.mem_singleton] at hb; subst hb; exact le_refl _
          · intro b hb
            rcases List.mem_cons.mp hb with hb | hb
            · subst hb; exact le_refl _
            · rw [List.mem_singleton] at hb; subst hb; exact le_refl _

lemma Tracker.tick_threshold (tr : Tracker) (idle : ℚ) (now wall : ℤ) :
    ((tr.tick idle now wall).1).threshold_secs = tr.threshold_secs := by
  unfold Tracker.tick
  dsimp only
  repeat' split
  all_goals rfl

/-- One `tick` preserves the log invariant, advancing the bound to `now`,
for a nonnegative threshold. -/
lemma tick_inv {tr : Tracker} {idle : ℚ} {now wall t : ℤ}
    (hthr : 0 ≤ tr.threshold_secs) (hinv : LogInv tr.db.intervals t)
    (hnow : t < now) :
    LogInv ((tr.tick idle now wall).1).db.intervals now := by
  unfold Tracker.tick
  dsimp only
  set ck := if tr.threshold_secs ≤ idle then IntervalType.Idle
            else IntervalType.Focus with hck
  have hidle : ck = IntervalType.Idle → 0 ≤ idle := by
    rw [hck]
    split
    · intro _
      linarith
    · intro hcontra
      exact absurd hcontra (by simp)
  have hupd := @update_db_inv tr.db ck idle now t hinv hnow hidle
  repeat' split
  all_goals first
    | exact hupd
    | exact hupd.sublist (List.filter_sublist _)

lemma run_ticks_inv : ∀ (samples : List (ℚ × ℤ × ℤ)) (tr : Tracker) (t : ℤ),
    0 ≤ tr.threshold_secs → LogInv tr.db.intervals t → TimesOk t samples →
    ∃ t', LogInv (tr.run_ticks samples).db.intervals t'
  | [], tr, t, _, hinv, _ => ⟨t, hinv⟩
  | s :: rest, tr, t, hthr, hinv, htimes => by
    obtain ⟨h1, _, h3⟩ := htimes
    have hstep := @tick_inv tr s.1 s.2.1 s.2.2 t hthr hinv h1
    have hthr' : 0 ≤ ((tr.tick s.1 s.2.1 s.2.2).1).threshold_secs := by
      rw [Tracker.tick_threshold]
      exact hthr
    have hrest := run_ticks_inv rest ((tr.tick s.1 s.2.1 s.2.2).1) s.2.1 hthr' hstep h3
    exact hrest

/-- C1: for every sequence of tick calls whose `now` timestamps strictly
increase with consecutive gaps of at most 10 seconds, starting from a log
satisfying the machine's invariant (in particular, the empty log), the
interval log stays sorted by non-decreasing `start` and no two of its
intervals overlap. -/
theorem C1_ticks_keep_log_sorted_disjoint
    (tr : Tracker) (samples : List (ℚ × ℤ × ℤ)) (t : ℤ)
    (hthr : 0 ≤ tr.threshold_secs)
    (hinv : LogInv tr.db.intervals t)
    (htimes : TimesOk t samples) :
    ((tr.run_ticks samples).db.intervals.Pairwise fun a b => a.start ≤ b.start) ∧
    ((tr.run_ticks samples).db.intervals.Pairwise fun a b => ¬ a.Overlaps b) := by
  obtain ⟨t', hpw, hwf, _⟩ := run_ticks_inv samples tr t hthr hinv htimes
  constructor
  · refine hpw.imp_of_mem ?_
    intro a b ha _ hab
    exact le_trans (hwf a ha) hab
  · refine hpw.imp_of_mem ?_
    intro a b _ _ hab
    unfold Interval.Overlaps
    have : min a.«end» b.«end» ≤ max a.start b.start :=
      le_trans (min_le_left _ _) (le_trans hab (le_max_right _ _))
    omega

theorem C1_ticks_keep_log_sorted_disjoint_witness :
    (0 : ℚ) ≤ (300 : ℚ) ∧
    LogInv (⟨300, ⟨[]⟩, none, 0, 0⟩ : Tracker).db.intervals 0 ∧
    TimesOk 0 [((0 : ℚ), (1000000000 : ℤ), (1000000000 : ℤ)),
               ((400 : ℚ), (6000000000 : ℤ), (6000000000 : ℤ))] ∧
    (((⟨300, ⟨[]⟩, none, 0, 0⟩ : Tracker).run_ticks
        [((0 : ℚ), (1000000000 : ℤ), (1000000000 : ℤ)),
         ((400 : ℚ), (6000000000 : ℤ), (6000000000 : ℤ))]).db.intervals.Pairwise
      fun a b => a.start ≤ b.start) :=
  ⟨by norm_num, by decide, by decide,
   (C1_ticks_keep_log_sorted_disjoint _ _ 0 (by norm_num) (by decide) (by decide)).1⟩

/-- Characterization of `update_db` on a log written as `init ++ [last]`,
with the branch structure of the source spelled out over plain ifs. -/
lemma update_db_concat (init : List Interval) (last : Interval)
    (ck : IntervalType) (idle : ℚ) (now : ℤ) :
    update_db ⟨init ++ [last]⟩ ck idle now =
      if Duration.seconds 10 < now - last.«end» then
        ⟨(init ++ [last]) ++ [Interval.new_at ck now]⟩
      else
        ⟨(if last.kind = ck then
            init ++ [{ last with «end» := now }]
          else if ck = IntervalType.Idle then
            (if now - Duration.seconds (f64toI64 idle) ≤ last.start then
              init ++ [{ last with kind := IntervalType.Idle, «end» := now }]
            else
              init ++ [{ last with «end» := now - Duration.seconds (f64toI64 idle) },
                       { start := now - Duration.seconds (f64toI64 idle), «end» := now,
                         kind := IntervalType.Idle }])
          else
            init ++ [{ last with «end» := now }, Interval.new_at IntervalType.Focus now]).filter
          fun i => decide (i.start ≤ i.«end»)⟩ := by
  have hne : init ++ [last] ≠ [] := by simp
  unfold update_db
  dsimp only
  rw [dif_neg hne]
  rw [show (init ++ [last]).getLast hne = last from List.getLast_concat _,
      List.dropLast_concat]
  rfl

/-- C5: a tick arriving more than 10 seconds after the last interval's
`end` appends a brand-new zero-length interval at `now` with the current
classification and leaves everything else, including the last interval's
`end`, unchanged — whatever the classification. -/
theorem C5_gap_appends_zero_length_interval (init : List Interval)
    (last : Interval) (ck : IntervalType) (idle : ℚ) (now : ℤ)
    (hgap : Duration.seconds 10 < now - last.«end») :
    (update_db ⟨init ++ [last]⟩ ck idle now).intervals =
      (init ++ [last]) ++ [{ start := now, «end» := now, kind := ck }] := by
  rw [update_db_concat, if_pos hgap]
  rfl

theorem C5_gap_appends_zero_length_interval_witness :
    Duration.seconds 10 < (20000000000 : ℤ) - (⟨0, 0, IntervalType.Focus⟩ : Interval).«end» ∧
    (update_db ⟨[] ++ [⟨0, 0, IntervalType.Focus⟩]⟩ IntervalType.Focus 0 20000000000).intervals =
      ([] ++ [⟨0, 0, IntervalType.Focus⟩]) ++
        [{ start := 20000000000, «end» := 20000000000, kind := IntervalType.Focus }] :=
  ⟨by decide,
   C5_gap_appends_zero_length_interval [] ⟨0, 0, IntervalType.Focus⟩
     IntervalType.Focus 0 20000000000 (by decide)⟩

/-- C4: on a Focus-to-Idle transition with no gap, when the backdated
onset `now - trunc(idle_seconds)` lies at or before the last interval's
start (ties included), `update_db` reclassifies the last interval to Idle
in place and extends its end to `now`; the log length is unchanged. -/
theorem C4_backdated_onset_reclassifies_in_place (init : List Interval)
    (last : Interval) (idle : ℚ) (now : ℤ)
    (hwfinit : ∀ i ∈ init, i.start ≤ i.«end»)
    (hgap : now - last.«end» ≤ Duration.seconds 10)
    (hfocus : last.kind = IntervalType.Focus)
    (hback : now - Duration.seconds (f64toI64 idle) ≤ last.start)
    (hstart : last.start ≤ now) :
    update_db ⟨init ++ [last]⟩ IntervalType.Idle idle now =
      ⟨init ++ [{ last with kind := IntervalType.Idle, «end» := now }]⟩ ∧
    (update_db ⟨init ++ [last]⟩ IntervalType.Idle idle now).intervals.length =
      (init ++ [last]).length := by
  have hkind : ¬ last.kind = IntervalType.Idle := by
    rw [hfocus]
    simp
  have heq : update_db ⟨init ++ [last]⟩ IntervalType.Idle idle now =
      ⟨init ++ [{ last with kind := IntervalType.Idle, «end» := now }]⟩ := by
    rw [update_db_concat, if_neg (not_lt.mpr hgap), if_neg hkind, if_pos rfl,
        if_pos hback]
    congr 1
    rw [List.filter_eq_self]
    intro a ha
    rcases List.mem_append.mp ha with ha | ha
    · exact decide_eq_true (hwfinit a ha)
    · rw [List.mem_singleton] at ha
      subst ha
      exact decide_eq_true hstart
  refine ⟨heq, ?_⟩
  rw [heq]
  simp

theorem C4_backdated_onset_reclassifies_in_place_witness :
    (∀ i ∈ ([] : List Interval), i.start ≤ i.«end») ∧
    (10000000000 : ℤ) - (⟨0, 5000000000, IntervalType.Focus⟩ : Interval).«end» ≤
      Duration.seconds 10 ∧
    (10000000000 : ℤ) - Duration.seconds (f64toI64 10) ≤
      (⟨0, 5000000000, IntervalType.Focus⟩ : Interval).start ∧
    update_db ⟨[] ++ [⟨0, 5000000000, IntervalType.Focus⟩]⟩ IntervalType.Idle 10 10000000000 =
      ⟨[] ++ [{ (⟨0, 5000000000, IntervalType.Focus⟩ : Interval) with
                kind := IntervalType.Idle, «end» := 10000000000 }]⟩ :=
  ⟨by decide, by decide, by decide,
   (C4_backdated_onset_reclassifies_in_place [] ⟨0, 5000000000, IntervalType.Focus⟩
     10 10000000000 (by decide) (by decide) (by decide) (by decide) (by decide)).1⟩

/-- C2, counterexample: with `idle_seconds = 1/2` (an exact `f64` value)
the code truncates to whole seconds, so the split boundary is `now`
rather than `now - idle_seconds`; the claim's exact-backdating equation
fails even though all of its hypotheses hold at this input (no gap, last
interval is Focus, and the untruncated onset `now - idle_seconds` is
strictly after the last interval's start). -/
theorem C2_exact_backdating_counterexample :
    ((1000000000 : ℤ) - (⟨0, 0, IntervalType.Focus⟩ : Interval).«end» ≤ Duration.seconds 10) ∧
    ((0 : ℚ) < (1000000000 : ℚ) - (mkRat 1 2) * 1000000000) ∧
    (update_db ⟨[⟨0, 0, IntervalType.Focus⟩]⟩ IntervalType.Idle (mkRat 1 2) 1000000000).intervals ≠
      [⟨0, 500000000, IntervalType.Focus⟩, ⟨500000000, 1000000000, IntervalType.Idle⟩] :=
  ⟨by decide, by rw [Rat.mkRat_eq_div]; norm_num, by decide⟩

/-- C2, amended: on a Focus-to-Idle transition with no gap and a
nonnegative idle reading whose truncated onset
`idle_start = now - trunc(idle_seconds)` (whole seconds, truncation
toward zero — not `now - idle_seconds` exactly) is strictly after the
last interval's start, `update_db` sets the last interval's end to that
truncated `idle_start` and appends an Idle interval from `idle_start` to
`now`. -/
theorem C2_truncated_backdating_split (init : List Interval)
    (last : Interval) (idle : ℚ) (now : ℤ)
    (hwfinit : ∀ i ∈ init, i.start ≤ i.«end»)
    (hgap : now - last.«end» ≤ Duration.seconds 10)
    (hfocus : last.kind = IntervalType.Focus)
    (hidle0 : 0 ≤ idle)
    (hsplit : last.start < now - Duration.seconds (f64toI64 idle)) :
    update_db ⟨init ++ [last]⟩ IntervalType.Idle idle now =
      ⟨init ++ [{ last with «end» := now - Duration.seconds (f64toI64 idle) },
                { start := now - Duration.seconds (f64toI64 idle), «end» := now,
                  kind := IntervalType.Idle }]⟩ := by
  have hkind : ¬ last.kind = IntervalType.Idle := by
    rw [hfocus]
    simp
  have hsec : 0 ≤ Duration.seconds (f64toI64 idle) :=
    mul_nonneg (f64toI64_nonneg hidle0) (by norm_num)
  rw [update_db_concat, if_neg (not_lt.mpr hgap), if_neg hkind, if_pos rfl,
      if_neg (not_le.mpr hsplit)]
  congr 1
  rw [List.filter_eq_self]
  intro a ha
  rcases List.mem_append.mp ha with ha | ha
  · exact decide_eq_true (hwfinit a ha)
  · rcases List.mem_cons.mp ha with ha | ha
    · subst ha
      exact decide_eq_true (le_of_lt hsplit)
    · rw [List.mem_singleton] at ha
      subst ha
      refine decide_eq_true ?_
      show now - Duration.seconds (f64toI64 idle) ≤ now
      omega

theorem C2_truncated_backdating_split_witness :
    (∀ i ∈ ([] : List Interval), i.start ≤ i.«end») ∧
    (600000000000 : ℤ) - (⟨0, 595000000000, IntervalType.Focus⟩ : Interval).«end» ≤
      Duration.seconds 10 ∧
    (⟨0, 595000000000, IntervalType.Focus⟩ : Interval).start <
      (600000000000 : ℤ) - Duration.seconds (f64toI64 300) ∧
    update_db ⟨[] ++ [⟨0, 595000000000, IntervalType.Focus⟩]⟩ IntervalType.Idle 300 600000000000 =
      ⟨[] ++ [{ (⟨0, 595000000000, IntervalType.Focus⟩ : Interval) with
                «end» := (600000000000 : ℤ) - Duration.seconds (f64toI64 300) },
              { start := (600000000000 : ℤ) - Duration.seconds (f64toI64 300),
                «end» := 600000000000, kind := IntervalType.Idle }]⟩ :=
  ⟨by decide, by decide, by decide,
   C2_truncated_backdating_split [] ⟨0, 595000000000, IntervalType.Focus⟩
     300 600000000000 (by decide) (by decide) (by decide) (by norm_num) (by decide)⟩

lemma frame_filter_decomp (init : List Interval) (last : Interval)
    (L : List Interval) (hL : L.length ≤ 2) :
    ((init ++ L).filter fun i => decide (i.start ≤ i.«end»)).length ≤
      (init ++ [last]).length + 1 ∧
    ∃ tail : List Interval, tail.length ≤ 2 ∧
      ((init ++ L).filter fun i => decide (i.start ≤ i.«end»)) =
        ((init ++ [last]).dropLast.filter fun i => decide (i.start ≤ i.«end»)) ++ tail := by
  constructor
  · have h1 := List.length_filter_le (fun i => decide (i.start ≤ i.«end»)) (init ++ L)
    simp only [List.length_append, List.length_singleton] at h1 ⊢
    omega
  · refine ⟨L.filter fun i => decide (i.start ≤ i.«end»),
      le_trans (List.length_filter_le _ _) hL, ?_⟩
    rw [List.dropLast_concat, List.filter_append]

/-- C9: on a non-empty log, `update_db` never edits an earlier interval:
the result is the original log minus its final element (possibly with
negative-duration intervals dropped by the closing cleanup) followed by
a tail of at most two intervals, and the log grows by at most one. -/
theorem C9_update_db_frame (db : Database) (ck : IntervalType) (idle : ℚ)
    (now : ℤ) (h : db.intervals ≠ []) :
    (update_db db ck idle now).intervals.length ≤ db.intervals.length + 1 ∧
    ∃ tail : List Interval, tail.length ≤ 2 ∧
      ((update_db db ck idle now).intervals = db.intervals.dropLast ++ tail ∨
       (update_db db ck idle now).intervals =
         (db.intervals.dropLast.filter fun i => decide (i.start ≤ i.«end»)) ++ tail) := by
  obtain ⟨l⟩ := db
  dsimp only at h ⊢
  obtain ⟨init, last, hil⟩ : ∃ init last, l = init ++ [last] :=
    ⟨l.dropLast, l.getLast h, (List.dropLast_append_getLast h).symm⟩
  subst hil
  rw [update_db_concat]
  by_cases hgap : Duration.seconds 10 < now - last.«end»
  · rw [if_pos hgap]
    refine ⟨by simp, ⟨[last, Interval.new_at ck now], by simp, Or.inl ?_⟩⟩
    rw [List.dropLast_concat]
    simp
  · rw [if_neg hgap]
    by_cases hkind : last.kind = ck
    · rw [if_pos hkind]
      obtain ⟨h1, tl, htl, heq⟩ := frame_filter_decomp init last
        [{ last with «end» := now }] (by simp)
      exact ⟨h1, tl, htl, Or.inr heq⟩
    · rw [if_neg hkind]
      by_cases hck : ck = IntervalType.Idle
      · rw [if_pos hck]
        by_cases hback : now - Duration.seconds (f64toI64 idle) ≤ last.start
        · rw [if_pos hback]
          obtain ⟨h1, tl, htl, heq⟩ := frame_filter_decomp init last
            [{ last with kind := IntervalType.Idle, «end» := now }] (by simp)
          exact ⟨h1, tl, htl, Or.inr heq⟩
        · rw [if_neg hback]
          obtain ⟨h1, tl, htl, heq⟩ := frame_filter_decomp init last
            [{ last with «end» := now - Duration.seconds (f64toI64 idle) },
             { start := now - Duration.seconds (f64toI64 idle), «end» := now,
               kind := IntervalType.Idle }] (by simp)
          exact ⟨h1, tl, htl, Or.inr heq⟩
      · rw [if_neg hck]
        obtain ⟨h1, tl, htl, heq⟩ := frame_filter_decomp init last
          [{ last with «end» := now }, Interval.new_at IntervalType.Focus now] (by simp)
        exact ⟨h1, tl, htl, Or.inr heq⟩

theorem C9_update_db_frame_witness :
    ((⟨[⟨0, 0, IntervalType.Focus⟩]⟩ : Database).intervals ≠ []) ∧
    ((update_db ⟨[⟨0, 0, IntervalType.Focus⟩]⟩ IntervalType.Focus 0 5000000000).intervals.length ≤
      (⟨[⟨0, 0, IntervalType.Focus⟩]⟩ : Database).intervals.length + 1) :=
  ⟨by decide,
   (C9_update_db_frame ⟨[⟨0, 0, IntervalType.Focus⟩]⟩ IntervalType.Focus 0 5000000000
     (by decide)).1⟩

/-- Shared helper: in the no-transition periodic branch, `tick` prunes
and then saves exactly the pruned updated database, updating
`last_save`. -/
lemma tick_periodic_save (tr : Tracker) (idle : ℚ) (now wall : ℤ)
    (hsame : some (if tr.threshold_secs ≤ idle then IntervalType.Idle
      else IntervalType.Focus) = tr.last_kind_seen)
    (h30 : Duration.seconds 30 < now - tr.last_save) :
    (tr.tick idle now wall).1.last_save = now ∧
    (tr.tick idle now wall).2 =
      [prune_old_data (update_db tr.db (if tr.threshold_secs ≤ idle
        then IntervalType.Idle else IntervalType.Focus) idle now) wall] := by
  unfold Tracker.tick
  dsimp only
  rw [if_neg (not_not_intro hsame)]
  dsimp only
  rw [if_pos h30]
  exact ⟨rfl, rfl⟩

/-- Shared helper: on a classification change, `tick` resets
`state_start`, saves the updated database immediately, sets `last_save`
to `now`, and the periodic branch does not fire again in the same tick. -/
lemma tick_transition_save (tr : Tracker) (idle : ℚ) (now wall : ℤ)
    (hdiff : some (if tr.threshold_secs ≤ idle then IntervalType.Idle
      else IntervalType.Focus) ≠ tr.last_kind_seen) :
    (tr.tick idle now wall).1.state_start = now ∧
    (tr.tick idle now wall).1.last_save = now ∧
    (tr.tick idle now wall).2 =
      [update_db tr.db (if tr.threshold_secs ≤ idle
        then IntervalType.Idle else IntervalType.Focus) idle now] := by
  unfold Tracker.tick
  dsimp only
  rw [if_pos hdiff]
  dsimp only
  rw [if_neg (by simp [Duration.seconds])]
  exact ⟨rfl, rfl, rfl⟩

/-- C6: whenever the computed classification differs from the one
recorded at the previous tick, `tick` resets `state_start` to `now` and
performs an immediate save of the updated log; independently, when the
classification is unchanged but more than 30 seconds have elapsed since
the last save, `tick` saves (after pruning); `last_save` becomes `now`
in both cases. -/
theorem C6_transition_and_periodic_saves (tr : Tracker) (idle : ℚ)
    (now wall : ℤ) (ck : IntervalType)
    (hck : ck = if tr.threshold_secs ≤ idle then IntervalType.Idle
      else IntervalType.Focus) :
    (some ck ≠ tr.last_kind_seen →
      (tr.tick idle now wall).1.state_start = now ∧
      (tr.tick idle now wall).1.last_save = now ∧
      (tr.tick idle now wall).2 = [update_db tr.db ck idle now]) ∧
    (some ck = tr.last_kind_seen →
      Duration.seconds 30 < now - tr.last_save →
      (tr.tick idle now wall).1.last_save = now ∧
      (tr.tick idle now wall).2 =
        [prune_old_data (update_db tr.db ck idle now) wall]) := by
  subst hck
  exact ⟨tick_transition_save tr idle now wall,
         tick_periodic_save tr idle now wall⟩

theorem C6_transition_and_periodic_saves_witness :
    ((⟨300, ⟨[]⟩, none, 0, 0⟩ : Tracker).tick 0 1000000000 1000000000).1.state_start =
      1000000000 ∧
    ((⟨300, ⟨[]⟩, none, 0, 0⟩ : Tracker).tick 0 1000000000 1000000000).1.last_save =
      1000000000 ∧
    ((⟨300, ⟨[]⟩, none, 0, 0⟩ : Tracker).tick 0 1000000000 1000000000).2 =
      [update_db (⟨[]⟩ : Database) IntervalType.Focus 0 1000000000] :=
  (C6_transition_and_periodic_saves ⟨300, ⟨[]⟩, none, 0, 0⟩ 0 1000000000 1000000000
    IntervalType.Focus (by decide)).1 (by decide)

/-- C7, counterexample: an interval whose `end` lies exactly 30 days
before the current time is not "more than 30 days" old, yet the prune
pass removes it (the code keeps only `end > now - 30 days`). -/
theorem C7_prune_boundary_counterexample :
    ¬((⟨0, Duration.days 1, IntervalType.Focus⟩ : Interval).«end» <
        Duration.days 31 - Duration.days 30) ∧
    (⟨0, Duration.days 1, IntervalType.Focus⟩ : Interval) ∉
      (prune_old_data ⟨[⟨0, Duration.days 1, IntervalType.Focus⟩]⟩
        (Duration.days 31)).intervals :=
  ⟨by decide, by decide⟩

/-- C7, amended: the retention prune removes exactly the intervals whose
`end` is 30 days or more before the current time (so the exact-boundary
interval is removed too) and keeps all others in order; an interval whose
`end` is 29 days old or newer is always retained; and in the periodic
30-second branch of `tick` the snapshot handed to the save is the pruned
log. -/
theorem C7_prune_thirty_day_retention (db : Database) (wall : ℤ) :
    (List.Sublist (prune_old_data db wall).intervals db.intervals) ∧
    (∀ i ∈ db.intervals,
      (i ∈ (prune_old_data db wall).intervals ↔ wall - Duration.days 30 < i.«end»)) ∧
    (∀ i ∈ db.intervals, wall - Duration.days 29 ≤ i.«end» →
      i ∈ (prune_old_data db wall).intervals) ∧
    (∀ (tr : Tracker) (idle : ℚ) (now : ℤ),
      some (if tr.threshold_secs ≤ idle then IntervalType.Idle
        else IntervalType.Focus) = tr.last_kind_seen →
      Duration.seconds 30 < now - tr.last_save →
      (tr.tick idle now wall).2 =
        [prune_old_data (update_db tr.db (if tr.threshold_secs ≤ idle
          then IntervalType.Idle else IntervalType.Focus) idle now) wall]) := by
  refine ⟨List.filter_sublist _, ?_, ?_, ?_⟩
  · intro i hi
    constructor
    · intro hmem
      have := List.of_mem_filter hmem
      simpa using this
    · intro hlt
      exact List.mem_filter.mpr ⟨hi, by simpa using hlt⟩
  · intro i hi h29
    refine List.mem_filter.mpr ⟨hi, ?_⟩
    have : wall - Duration.days 30 < i.«end» := by
      have : Duration.days 29 < Duration.days 30 := by decide
      omega
    simpa using this
  · intro tr idle now hsame h30
    exact (tick_periodic_save tr idle now wall hsame h30).2

theorem C7_prune_thirty_day_retention_witness :
    (⟨0, Duration.days 2, IntervalType.Focus⟩ : Interval) ∈
      (⟨[⟨0, Duration.days 2, IntervalType.Focus⟩]⟩ : Database).intervals ∧
    Duration.days 31 - Duration.days 29 ≤
      (⟨0, Duration.days 2, IntervalType.Focus⟩ : Interval).«end» ∧
    (⟨0, Duration.days 2, IntervalType.Focus⟩ : Interval) ∈
      (prune_old_data ⟨[⟨0, Duration.days 2, IntervalType.Focus⟩]⟩
        (Duration.days 31)).intervals :=
  ⟨by decide, by decide,
   (C7_prune_thirty_day_retention ⟨[⟨0, Duration.days 2, IntervalType.Focus⟩]⟩
      (Duration.days 31)).2.2.1 _ (by decide) (by decide)⟩

/-- C10: `reset` clears the in-memory log before invoking save — the
snapshot handed to `Storage::save` is already the empty log — and when
the save fails the error is propagated unchanged while the cleared
in-memory log is not rolled back. -/
theorem C10_reset_clears_then_saves (tr : Tracker) (r : Except String Unit) :
    (tr.reset r).2.1.intervals = [] ∧
    (tr.reset r).1.db.intervals = [] ∧
    (tr.reset r).2.2 = r :=
  ⟨rfl, rfl, rfl⟩

/-- Per-day statistics bucket (src/stats.rs, `DayStats`).  Durations are
signed nanosecond counts, as `chrono::Duration` is signed. -/
structure DayStats where
  total_focus : ℤ
  total_idle : ℤ
  focus_sessions : ℕ
  idle_sessions : ℕ
deriving DecidableEq, Repr

/-- The `Default` value of `DayStats`. -/
def DayStats.default : DayStats := ⟨0, 0, 0, 0⟩

/-- Rolling summary (src/stats.rs, `SummaryStats`). -/
structure SummaryStats where
  total_focus : ℤ
  total_idle : ℤ
  focus_count : ℕ
  idle_count : ℕ
  max_focus : Option ℤ
  min_focus : Option ℤ
  max_idle : Option ℤ
  min_idle : Option ℤ
deriving DecidableEq, Repr

/-- The `Default` value of `SummaryStats`. -/
def SummaryStats.default : SummaryStats := ⟨0, 0, 0, 0, none, none, none, none⟩

/-- The loop body of `calculate_summary` for one interval: skip when the
duration is negative, otherwise accumulate totals, counts and running
max/min per kind (`map_or` written out as a match). -/
def summary_step (s : SummaryStats) (i : Interval) : SummaryStats :=
  let duration := i.«end» - i.start
  if duration < 0 then s
  else
    match i.kind with
    | IntervalType.Focus =>
      { s with total_focus := s.total_focus + duration
               focus_count := s.focus_count + 1
               max_focus := some (match s.max_focus with
                 | none => duration
                 | some m => max m duration)
               min_focus := some (match s.min_focus with
                 | none => duration
                 | some m => min m duration) }
    | IntervalType.Idle =>
      { s with total_idle := s.total_idle + duration
               idle_count := s.idle_count + 1
               max_idle := some (match s.max_idle with
                 | none => duration
                 | some m => max m duration)
               min_idle := some (match s.min_idle with
                 | none => duration
                 | some m => min m duration) }

/-- The function `calculate_summary` (src/stats.rs lines 34-60). -/
def calculate_summary (intervals : List Interval) : SummaryStats :=
  intervals.foldl summary_step SummaryStats.default

/-- The statistics record (src/stats.rs, `Stats`).  The `BTreeMap` of
day buckets is modelled as a total function from local-date indices to
`DayStats`, absent dates mapping to the default bucket. -/
structure Stats where
  daily_stats : ℤ → DayStats
  session_summary : SummaryStats
  today_summary : SummaryStats
  week_summary : SummaryStats
  today : ℤ
  week_start : ℤ

/-- Loop body of the single bucketing pass of `calculate_stats`: update
the day bucket of the interval's local start date and push the interval
onto the session / today / week collections when it qualifies. -/
def stats_step (localDate : ℤ → ℤ) (run_start_time : Option ℤ)
    (today week_start week_end : ℤ)
    (acc : (ℤ → DayStats) × List Interval × List Interval × List Interval)
    (i : Interval) : (ℤ → DayStats) × List Interval × List Interval × List Interval :=
  let date := localDate i.start
  let duration := i.«end» - i.start
  let stats := acc.1 date
  let stats1 := match i.kind with
    | IntervalType.Focus =>
      { stats with total_focus := stats.total_focus + duration
                   focus_sessions := stats.focus_sessions + 1 }
    | IntervalType.Idle =>
      { stats with total_idle := stats.total_idle + duration
                   idle_sessions := stats.idle_sessions + 1 }
  let daily := Function.update acc.1 date stats1
  let sessionl := match run_start_time with
    | some run_start => if run_start ≤ i.start then acc.2.1 ++ [i] else acc.2.1
    | none => acc.2.1
  let todayl := if date = today then acc.2.2.1 ++ [i] else acc.2.2.1
  let weekl := if week_start ≤ date ∧ date ≤ week_end then acc.2.2.2 ++ [i]
               else acc.2.2.2
  (daily, sessionl, todayl, weekl)

/-- The function `calculate_stats` (src/stats.rs lines 62-116).  The wall-clock
environment the source reads from `Local::now()` is passed explicitly:
`localDate` maps a UTC timestamp to its local calendar date (a day
index), `today` is the current local date and `week_start` the most
recent Monday. -/
def calculate_stats (db : Database) (run_start_time : Option ℤ)
    (localDate : ℤ → ℤ) (today week_start : ℤ) : Stats :=
  let week_end := week_start + 6
  let acc := db.intervals.foldl
    (stats_step localDate run_start_time today week_start week_end)
    (fun _ => DayStats.default, [], [], [])
  { daily_stats := acc.1
    session_summary := calculate_summary acc.2.1
    today_summary := calculate_summary acc.2.2.1
    week_summary := calculate_summary acc.2.2.2
    today := today
    week_start := week_start }

/-- Membership test for the session collection. -/
def session_pred (run_start_time : Option ℤ) (i : Interval) : Bool :=
  match run_start_time with
  | some run_start => decide (run_start ≤ i.start)
  | none => false

/-- Membership test for the today collection. -/
def today_pred (localDate : ℤ → ℤ) (today : ℤ) (i : Interval) : Bool :=
  decide (localDate i.start = today)

/-- Membership test for the week collection. -/
def week_pred (localDate : ℤ → ℤ) (week_start week_end : ℤ) (i : Interval) : Bool :=
  decide (week_start ≤ localDate i.start ∧ localDate i.start ≤ week_end)

lemma stats_fold_session (ld : ℤ → ℤ) (rst : Option ℤ) (t ws we : ℤ) :
    ∀ (l : List Interval) (acc : (ℤ → DayStats) × List Interval × List Interval × List Interval),
      (l.foldl (stats_step ld rst t ws we) acc).2.1 = acc.2.1 ++ l.filter (session_pred rst)
  | [], acc => by simp
  | i :: l, acc => by
    rw [List.foldl_cons, stats_fold_session ld rst t ws we l _]
    have hstep : (stats_step ld rst t ws we acc i).2.1 =
        acc.2.1 ++ if session_pred rst i then [i] else [] := by
      unfold stats_step session_pred
      cases rst with
      | none => simp
      | some r =>
        by_cases h : r ≤ i.start <;> simp [h]
    rw [hstep, List.filter_cons]
    by_cases h : session_pred rst i <;> simp [h]

lemma stats_fold_today (ld : ℤ → ℤ) (rst : Option ℤ) (t ws we : ℤ) :
    ∀ (l : List Interval) (acc : (ℤ → DayStats) × List Interval × List Interval × List Interval),
      (l.foldl (stats_step ld rst t ws we) acc).2.2.1 = acc.2.2.1 ++ l.filter (today_pred ld t)
  | [], acc => by simp
  | i :: l, acc => by
    rw [List.foldl_cons, stats_fold_today ld rst t ws we l _]
    have hstep : (stats_step ld rst t ws we acc i).2.2.1 =
        acc.2.2.1 ++ if today_pred ld t i then [i] else [] := by
      unfold stats_step today_pred
      by_cases h : ld i.start = t <;> simp [h]
    rw [hstep, List.filter_cons]
    by_cases h : today_pred ld t i <;> simp [h]

lemma stats_fold_week (ld : ℤ → ℤ) (rst : Option ℤ) (t ws we : ℤ) :
    ∀ (l : List Interval) (acc : (ℤ → DayStats) × List Interval × List Interval × List Interval),
      (l.foldl (stats_step ld rst t ws we) acc).2.2.2 = acc.2.2.2 ++ l.filter (week_pred ld ws we)
  | [], acc => by simp
  | i :: l, acc => by
    rw [List.foldl_cons, stats_fold_week ld rst t ws we l _]
    have hstep : (stats_step ld rst t ws we acc i).2.2.2 =
        acc.2.2.2 ++ if week_pred ld ws we i then [i] else [] := by
      unfold stats_step week_pred
      by_cases h : ws ≤ ld i.start ∧ ld i.start ≤ we <;> simp [h]
    rw [hstep, List.filter_cons]
    by_cases h : week_pred ld ws we i <;> simp [h]

lemma summary_skips_negative (bad : Interval) (hbad : bad.«end» < bad.start)
    (m1 m2 : List Interval) :
    calculate_summary (m1 ++ bad :: m2) = calculate_summary (m1 ++ m2) := by
  unfold calculate_summary
  rw [List.foldl_append, List.foldl_cons, List.foldl_append]
  congr 1
  unfold summary_step
  rw [if_pos (by omega)]

/-- C3, counterexample: an interval with `end` before `start` is not
skipped by the per-day bucketing pass of `calculate_stats` — it changes
the day bucket (incrementing the session count and adding its negative
duration), contradicting the claim that such an interval contributes
nothing to the per-day totals and session counts. -/
theorem C3_daily_bucket_counterexample :
    ((⟨10, 0, IntervalType.Focus⟩ : Interval).«end» <
      (⟨10, 0, IntervalType.Focus⟩ : Interval).start) ∧
    (calculate_stats ⟨[⟨10, 0, IntervalType.Focus⟩]⟩ none (fun _ => 0) 0 0).daily_stats 0 ≠
      (calculate_stats ⟨[]⟩ none (fun _ => 0) 0 0).daily_stats 0 :=
  ⟨by decide, by decide⟩

/-- C3, amended: the `end < start` skip is applied by the summary
computation — inserting such an interval anywhere leaves the session,
today and week summaries unchanged — but the per-day bucketing pass of
`calculate_stats` does count the interval. -/
theorem C3_summaries_skip_negative_durations (bad : Interval)
    (hbad : bad.«end» < bad.start) (l1 l2 : List Interval)
    (rst : Option ℤ) (ld : ℤ → ℤ) (today ws : ℤ) :
    (calculate_stats ⟨l1 ++ bad :: l2⟩ rst ld today ws).session_summary =
      (calculate_stats ⟨l1 ++ l2⟩ rst ld today ws).session_summary ∧
    (calculate_stats ⟨l1 ++ bad :: l2⟩ rst ld today ws).today_summary =
      (calculate_stats ⟨l1 ++ l2⟩ rst ld today ws).today_summary ∧
    (calculate_stats ⟨l1 ++ bad :: l2⟩ rst ld today ws).week_summary =
      (calculate_stats ⟨l1 ++ l2⟩ rst ld today ws).week_summary := by
  have hgen : ∀ (p : Interval → Bool) (l1 l2 : List Interval),
      calculate_summary ((l1 ++ bad :: l2).filter p) =
        calculate_summary ((l1 ++ l2).filter p) := by
    intro p l1 l2
    rw [List.filter_append, List.filter_append, List.filter_cons]
    by_cases hp : p bad
    · rw [if_pos hp]
      exact summary_skips_negative bad hbad _ _
    · rw [if_neg hp]
  refine ⟨?_, ?_, ?_⟩
  · show calculate_summary _ = calculate_summary _
    rw [stats_fold_session, stats_fold_session, List.nil_append, List.nil_append]
    exact hgen _ _ _
  · show calculate_summary _ = calculate_summary _
    rw [stats_fold_today, stats_fold_today, List.nil_append, List.nil_append]
    exact hgen _ _ _
  · show calculate_summary _ = calculate_summary _
    rw [stats_fold_week, stats_fold_week, List.nil_append, List.nil_append]
    exact hgen _ _ _

theorem C3_summaries_skip_negative_durations_witness :
    ((⟨10, 0, IntervalType.Focus⟩ : Interval).«end» <
      (⟨10, 0, IntervalType.Focus⟩ : Interval).start) ∧
    (calculate_stats ⟨[] ++ (⟨10, 0, IntervalType.Focus⟩ : Interval) ::
        [⟨0, 7, IntervalType.Idle⟩]⟩ (some 0) (fun _ => 0) 0 0).session_summary =
      (calculate_stats ⟨[] ++ [⟨0, 7, IntervalType.Idle⟩]⟩
        (some 0) (fun _ => 0) 0 0).session_summary :=
  ⟨by decide,
   (C3_summaries_skip_negative_durations ⟨10, 0, IntervalType.Focus⟩ (by decide)
     [] [⟨0, 7, IntervalType.Idle⟩] (some 0) (fun _ => 0) 0 0).1⟩

/-- The character of a decimal digit. -/
def digitChar (n : ℕ) : Char := Char.ofNat (48 + n)

/-- Fixed-width zero-padded decimal rendering, most significant digit
first; `n` must be below `10 ^ w`. -/
def padDigits : ℕ → ℕ → List Char
  | 0, _ => []
  | w + 1, n => digitChar (n / 10 ^ w) :: padDigits w (n % 10 ^ w)

/-- Decimal value of a digit character. -/
def charDigit? (c : Char) : Option ℕ :=
  if 48 ≤ c.toNat ∧ c.toNat ≤ 57 then some (c.toNat - 48) else none

/-- Fixed-width decimal parser, accumulating into `acc` and returning the
unconsumed remainder. -/
def parseDigits : ℕ → ℕ → List Char → Option (ℕ × List Char)
  | 0, acc, cs => some (acc, cs)
  | _ + 1, _, [] => none
  | w + 1, acc, c :: cs =>
    match charDigit? c with
    | some d => parseDigits w (acc * 10 + d) cs
    | none => none

lemma charDigit_digitChar {d : ℕ} (hd : d < 10) :
    charDigit? (digitChar d) = some d := by
  interval_cases d <;> decide

lemma parseDigits_padDigits : ∀ (w acc n : ℕ) (cs : List Char), n < 10 ^ w →
    parseDigits w acc (padDigits w n ++ cs) = some (acc * 10 ^ w + n, cs)
  | 0, acc, n, cs, h => by
    have hn : n = 0 := by
      simpa using Nat.lt_one_iff.mp (by simpa using h)
    subst hn
    simp [padDigits, parseDigits]
  | w + 1, acc, n, cs, h => by
    have hd : n / 10 ^ w < 10 := by
      apply Nat.div_lt_of_lt_mul
      calc n < 10 ^ (w + 1) := h
        _ = 10 ^ w * 10 := by rw [pow_succ]
    have hm : n % 10 ^ w < 10 ^ w := Nat.mod_lt _ (pow_pos (by norm_num) w)
    have harith : (acc * 10 + n / 10 ^ w) * 10 ^ w + n % 10 ^ w =
        acc * 10 ^ (w + 1) + n := by
      calc (acc * 10 + n / 10 ^ w) * 10 ^ w + n % 10 ^ w
          = acc * (10 ^ w * 10) + (10 ^ w * (n / 10 ^ w) + n % 10 ^ w) := by ring
        _ = acc * 10 ^ (w + 1) + n := by rw [Nat.div_add_mod, pow_succ]
    calc parseDigits (w + 1) acc (padDigits (w + 1) n ++ cs)
        = parseDigits w (acc * 10 + n / 10 ^ w) (padDigits w (n % 10 ^ w) ++ cs) := by
          simp [padDigits, parseDigits, charDigit_digitChar hd]
      _ = some ((acc * 10 + n / 10 ^ w) * 10 ^ w + n % 10 ^ w, cs) :=
          parseDigits_padDigits w _ _ cs hm
      _ = some (acc * 10 ^ (w + 1) + n, cs) := by rw [harith]

/-- Gregorian leap-year test. -/
def isLeap (y : ℕ) : Bool := decide ((y % 4 = 0 ∧ y % 100 ≠ 0) ∨ y % 400 = 0)

/-- Number of days in a calendar year. -/
def daysInYear (y : ℕ) : ℕ := if isLeap y then 366 else 365

/-- Number of days in month `m` (1-12). -/
def monthLen (leap : Bool) (m : ℕ) : ℕ :=
  if m = 2 then (if leap then 29 else 28)
  else if m = 4 ∨ m = 6 ∨ m = 9 ∨ m = 11 then 30
  else 31

/-- Locate an offset inside consecutive segments: starting from segment
`i`, keep subtracting segment lengths until the remainder fits; returns
the segment index and the remainder. -/
def splitAux (len : ℕ → ℕ) : ℕ → ℕ → ℕ → ℕ × ℕ
  | 0, i, n => (i, n)
  | fuel + 1, i, n => if n < len i then (i, n) else splitAux len fuel (i + 1) (n - len i)

/-- Total length of the `k` consecutive segments starting at `base`. -/
def startSum (len : ℕ → ℕ) (base : ℕ) : ℕ → ℕ
  | 0 => 0
  | k + 1 => startSum len base k + len (base + k)

lemma startSum_left (len : ℕ → ℕ) (base : ℕ) :
    ∀ k, startSum len base (k + 1) = len base + startSum len (base + 1) k
  | 0 => by simp [startSum]
  | k + 1 => by
    have h1 : startSum len base (k + 2) = startSum len base (k + 1) + len (base + (k + 1)) := rfl
    have h2 : startSum len (base + 1) (k + 1) = startSum len (base + 1) k + len (base + 1 + k) := rfl
    rw [h1, startSum_left len base k, h2]
    have : base + (k + 1) = base + 1 + k := by omega
    rw [this]
    omega

lemma splitAux_spec (len : ℕ → ℕ) : ∀ (fuel base n : ℕ),
    n < startSum len base fuel →
    base ≤ (splitAux len fuel base n).1 ∧
    (splitAux len fuel base n).1 < base + fuel ∧
    (splitAux len fuel base n).2 < len (splitAux len fuel base n).1 ∧
    startSum len base ((splitAux len fuel base n).1 - base) +
      (splitAux len fuel base n).2 = n
  | 0, base, n, hn => by
    simp [startSum] at hn
  | fuel + 1, base, n, hn => by
    by_cases h : n < len base
    · simp only [splitAux, if_pos h]
      refine ⟨le_refl _, by omega, h, ?_⟩
      simp [startSum]
    · simp only [splitAux, if_neg h]
      push_neg at h
      rw [startSum_left] at hn
      have hn' : n - len base < startSum len (base + 1) fuel := by omega
      obtain ⟨ih1, ih2, ih3, ih4⟩ := splitAux_spec len fuel (base + 1) (n - len base) hn'
      refine ⟨by omega, by omega, ih3, ?_⟩
      have hk : (splitAux len fuel (base + 1) (n - len base)).1 - base =
          ((splitAux len fuel (base + 1) (n - len base)).1 - (base + 1)) + 1 := by
        omega
      rw [hk, startSum_left]
      omega

/-- Modelled from the spec: the persisted file stores `start`/`end` as
ISO-8601 UTC timestamps (chrono's RFC 3339 serialization).  The renderer
is modelled for the four-digit-year range 1970-01-01T00:00:00Z up to
year 10000, as `YYYY-MM-DDThh:mm:ss.nnnnnnnnnZ` with a fixed nine-digit
fractional-second field (chrono emits 0, 3, 6 or 9 fractional digits;
the fixed-width choice is an equivalent injective rendering of the same
instant). -/
def printTsChars (t : ℤ) : List Char :=
  let n := t.toNat
  let ns := n % 1000000000
  let secs := n / 1000000000
  let sod := secs % 86400
  let days := secs / 86400
  let yd := splitAux daysInYear 8030 1970 days
  let md := splitAux (monthLen (isLeap yd.1)) 12 1 yd.2
  padDigits 4 yd.1 ++ '-' :: padDigits 2 md.1 ++ '-' :: padDigits 2 (md.2 + 1) ++
  'T' :: padDigits 2 (sod / 3600) ++ ':' :: padDigits 2 (sod % 3600 / 60) ++
  ':' :: padDigits 2 (sod % 60) ++ '.' :: padDigits 9 ns ++ ['Z']

/-- Days since 1970-01-01 of a civil date: whole years, then whole
months of the final year, then the day offset. -/
def daysFromCivil (y m d : ℕ) : ℕ :=
  startSum daysInYear 1970 (y - 1970) + startSum (monthLen (isLeap y)) 1 (m - 1) + (d - 1)

/-- Consume one expected character. -/
def expectChar (c : Char) : List Char → Option (List Char)
  | [] => none
  | x :: xs => if x = c then some xs else none

/-- The time-of-day and subsecond fields assembled into a timestamp. -/
def civilToTs (y m d hh mi ss ns : ℕ) : ℤ :=
  (((daysFromCivil y m d * 86400 + hh * 3600 + mi * 60 + ss) *
      1000000000 + ns : ℕ) : ℤ)

/-- Date half of the RFC 3339 parser: `YYYY-MM-DDT`, returning the three
fields and the remainder. -/
def parseDatePart (cs0 : List Char) : Option ((ℕ × ℕ × ℕ) × List Char) :=
  (parseDigits 4 0 cs0).bind fun (yc : ℕ × List Char) =>
  (expectChar '-' yc.2).bind fun (cs2 : List Char) =>
  (parseDigits 2 0 cs2).bind fun (mc : ℕ × List Char) =>
  (expectChar '-' mc.2).bind fun (cs4 : List Char) =>
  (parseDigits 2 0 cs4).bind fun (dc : ℕ × List Char) =>
  (expectChar 'T' dc.2).bind fun (cs6 : List Char) =>
  some ((yc.1, mc.1, dc.1), cs6)

/-- Time half of the RFC 3339 parser: `hh:mm:ss.nnnnnnnnnZ`, returning
the four fields and the remainder. -/
def parseTimePart (cs0 : List Char) : Option ((ℕ × ℕ × ℕ × ℕ) × List Char) :=
  (parseDigits 2 0 cs0).bind fun (hc : ℕ × List Char) =>
  (expectChar ':' hc.2).bind fun (cs2 : List Char) =>
  (parseDigits 2 0 cs2).bind fun (mic : ℕ × List Char) =>
  (expectChar ':' mic.2).bind fun (cs4 : List Char) =>
  (parseDigits 2 0 cs4).bind fun (sc : ℕ × List Char) =>
  (expectChar '.' sc.2).bind fun (cs6 : List Char) =>
  (parseDigits 9 0 cs6).bind fun (nc : ℕ × List Char) =>
  (expectChar 'Z' nc.2).bind fun (cs8 : List Char) =>
  some ((hc.1, mic.1, sc.1, nc.1), cs8)

/-- Modelled from the spec: the RFC 3339 parser used on load, on the
canonical rendering produced by `printTsChars`. -/
def parseTsChars (cs0 : List Char) : Option ℤ :=
  (parseDatePart cs0).bind fun (dt : (ℕ × ℕ × ℕ) × List Char) =>
  (parseTimePart dt.2).bind fun (tm : (ℕ × ℕ × ℕ × ℕ) × List Char) =>
  if tm.2 = [] then
    some (civilToTs dt.1.1 dt.1.2.1 dt.1.2.2 tm.1.1 tm.1.2.1 tm.1.2.2.1 tm.1.2.2.2)
  else none

/-- Number of Gregorian leap years in `[0, y)`. -/
def leapsBefore (y : ℕ) : ℕ := (y + 3) / 4 - (y + 99) / 100 + (y + 399) / 400

lemma leapsBefore_succ (y : ℕ) :
    leapsBefore (y + 1) = leapsBefore y + (if isLeap y then 1 else 0) := by
  unfold leapsBefore isLeap
  by_cases hP : ((y % 4 = 0 ∧ y % 100 ≠ 0) ∨ y % 400 = 0)
  · rw [if_pos (decide_eq_true hP)]
    omega
  · rw [if_neg (by simp [decide_eq_true_eq, hP])]
    omega

lemma startSum_daysInYear_closed : ∀ k : ℕ,
    startSum daysInYear 1970 k + leapsBefore 1970 = 365 * k + leapsBefore (1970 + k)
  | 0 => by simp [startSum]
  | k + 1 => by
    have ih := startSum_daysInYear_closed k
    have hstep : startSum daysInYear 1970 (k + 1) =
        startSum daysInYear 1970 k + daysInYear (1970 + k) := rfl
    have hcount := leapsBefore_succ (1970 + k)
    have hdays : daysInYear (1970 + k) = 365 + (if isLeap (1970 + k) then 1 else 0) := by
      unfold daysInYear
      by_cases h : isLeap (1970 + k) <;> simp [h]
    have harr : 1970 + (k + 1) = (1970 + k) + 1 := by omega
    rw [hstep, hdays, harr, hcount]
    omega

/-- Total days from 1970-01-01 to 10000-01-01. -/
lemma startSum_daysInYear_value : startSum daysInYear 1970 8030 = 2932897 := by
  have h := startSum_daysInYear_closed 8030
  have h1 : leapsBefore 1970 = 478 := by decide
  have h2 : leapsBefore (1970 + 8030) = 2425 := by decide
  omega

/-- A timestamp chrono serializes with a four-digit year at or after the
Unix epoch: nonnegative and before 10000-01-01T00:00:00Z. -/
def TsInRange (t : ℤ) : Prop := 0 ≤ t ∧ t < 253402300800000000000

instance (t : ℤ) : Decidable (TsInRange t) :=
  inferInstanceAs (Decidable (_ ∧ _))

lemma monthLen_le31 (b : Bool) (m : ℕ) : monthLen b m ≤ 31 := by
  unfold monthLen
  repeat' split
  all_goals omega

lemma startSum_monthLen (y : ℕ) :
    startSum (monthLen (isLeap y)) 1 12 = daysInYear y := by
  unfold daysInYear
  cases hb : isLeap y <;> decide

lemma expectChar_cons (c : Char) (cs : List Char) :
    expectChar c (c :: cs) = some cs := by
  simp [expectChar]

lemma parseDatePart_print (y m d : ℕ)
    (hby : y < 10000) (hbm : m < 100) (hbd : d < 100) (cs : List Char) :
    parseDatePart (padDigits 4 y ++ '-' :: (padDigits 2 m ++ '-' ::
      (padDigits 2 d ++ 'T' :: cs))) = some ((y, m, d), cs) := by
  have p4 : (10 : ℕ) ^ 4 = 10000 := by norm_num
  have p2 : (10 : ℕ) ^ 2 = 100 := by norm_num
  have py : ∀ cs, parseDigits 4 0 (padDigits 4 y ++ cs) = some (y, cs) := by
    intro cs
    rw [parseDigits_padDigits 4 0 y cs (by rw [p4]; exact hby)]
    simp
  have pm : ∀ cs, parseDigits 2 0 (padDigits 2 m ++ cs) = some (m, cs) := by
    intro cs
    rw [parseDigits_padDigits 2 0 m cs (by rw [p2]; exact hbm)]
    simp
  have pd : ∀ cs, parseDigits 2 0 (padDigits 2 d ++ cs) = some (d, cs) := by
    intro cs
    rw [parseDigits_padDigits 2 0 d cs (by rw [p2]; exact hbd)]
    simp
  simp only [parseDatePart, py, pm, pd, expectChar_cons, Option.some_bind]

lemma parseTimePart_print (hh mi ss ns : ℕ)
    (hbh : hh < 100) (hbmi : mi < 100) (hbss : ss < 100)
    (hbns : ns < 1000000000) (cs : List Char) :
    parseTimePart (padDigits 2 hh ++ ':' :: (padDigits 2 mi ++ ':' ::
      (padDigits 2 ss ++ '.' :: (padDigits 9 ns ++ 'Z' :: cs)))) =
      some ((hh, mi, ss, ns), cs) := by
  have p2 : (10 : ℕ) ^ 2 = 100 := by norm_num
  have p9 : (10 : ℕ) ^ 9 = 1000000000 := by norm_num
  have ph : ∀ cs, parseDigits 2 0 (padDigits 2 hh ++ cs) = some (hh, cs) := by
    intro cs
    rw [parseDigits_padDigits 2 0 hh cs (by rw [p2]; exact hbh)]
    simp
  have pmi : ∀ cs, parseDigits 2 0 (padDigits 2 mi ++ cs) = some (mi, cs) := by
    intro cs
    rw [parseDigits_padDigits 2 0 mi cs (by rw [p2]; exact hbmi)]
    simp
  have pss : ∀ cs, parseDigits 2 0 (padDigits 2 ss ++ cs) = some (ss, cs) := by
    intro cs
    rw [parseDigits_padDigits 2 0 ss cs (by rw [p2]; exact hbss)]
    simp
  have pns : ∀ cs, parseDigits 9 0 (padDigits 9 ns ++ cs) = some (ns, cs) := by
    intro cs
    rw [parseDigits_padDigits 9 0 ns cs (by rw [p9]; exact hbns)]
    simp
  simp only [parseTimePart, ph, pmi, pss, pns, expectChar_cons, Option.some_bind]

lemma parseTs_components (y m d hh mi ss ns : ℕ)
    (hby : y < 10000) (hbm : m < 100) (hbd : d < 100) (hbh : hh < 100)
    (hbmi : mi < 100) (hbss : ss < 100) (hbns : ns < 1000000000) :
    parseTsChars (padDigits 4 y ++ '-' :: (padDigits 2 m ++ '-' ::
      (padDigits 2 d ++ 'T' :: (padDigits 2 hh ++ ':' :: (padDigits 2 mi ++ ':' ::
      (padDigits 2 ss ++ '.' :: (padDigits 9 ns ++ ['Z']))))))) =
      some (civilToTs y m d hh mi ss ns) := by
  have hZ : (['Z'] : List Char) = 'Z' :: [] := rfl
  rw [hZ]
  simp only [parseTsChars, parseDatePart_print y m d hby hbm hbd,
    parseTimePart_print hh mi ss ns hbh hbmi hbss hbns, Option.some_bind,
    eq_self_iff_true, if_true]

/-- Printing a representable timestamp and parsing the result recovers
it exactly. -/
lemma parseTs_printTs_roundtrip (t : ℤ) (h : TsInRange t) :
    parseTsChars (printTsChars t) = some t := by
  obtain ⟨h0, h1⟩ := h
  obtain ⟨n, rfl⟩ : ∃ n : ℕ, t = (n : ℤ) := ⟨t.toNat, (Int.toNat_of_nonneg h0).symm⟩
  have hn : n < 253402300800000000000 := by exact_mod_cast h1
  simp only [printTsChars, Int.toNat_natCast, List.append_assoc, List.cons_append]
  set days := n / 1000000000 / 86400 with hdays_def
  set sod := n / 1000000000 % 86400 with hsod_def
  set nsub := n % 1000000000 with hnsub_def
  have hdays : days < startSum daysInYear 1970 8030 := by
    rw [startSum_daysInYear_value, hdays_def]
    omega
  obtain ⟨hy1, hy2, hy3, hy4⟩ := splitAux_spec daysInYear 8030 1970 days hdays
  set y := (splitAux daysInYear 8030 1970 days).1 with hy_def
  set doy := (splitAux daysInYear 8030 1970 days).2 with hdoy_def
  have hdoy : doy < startSum (monthLen (isLeap y)) 1 12 := by
    rw [startSum_monthLen]
    exact hy3
  obtain ⟨hm1, hm2, hm3, hm4⟩ := splitAux_spec (monthLen (isLeap y)) 12 1 doy hdoy
  set m := (splitAux (monthLen (isLeap y)) 12 1 doy).1 with hm_def
  set dm := (splitAux (monthLen (isLeap y)) 12 1 doy).2 with hdm_def
  have hd31 : dm < 31 := lt_of_lt_of_le hm3 (monthLen_le31 _ _)
  clear_value days sod nsub y doy m dm
  rw [parseTs_components y m (dm + 1) (sod / 3600) (sod % 3600 / 60) (sod % 60) nsub
    (by omega) (by omega) (by omega) (by omega) (by omega) (by omega) (by omega)]
  have hnat : (daysFromCivil y m (dm + 1) * 86400 + (sod / 3600) * 3600 +
      (sod % 3600 / 60) * 60 + sod % 60) * 1000000000 + nsub = n := by
    unfold daysFromCivil
    omega
  have harith : civilToTs y m (dm + 1) (sod / 3600) (sod % 3600 / 60) (sod % 60) nsub =
      (n : ℤ) := by
    unfold civilToTs
    exact_mod_cast congrArg (Nat.cast : ℕ → ℤ) hnat
  rw [harith]

/-- A JSON document tree.  The serde_json text layer (printing the tree
with `to_string_pretty` and reading it back with `from_str`, plus the
temp-file/rename transport of `Storage::save`) is modelled as the
identity on this tree: what the round-trip claim depends on — the
timestamp strings and the field/variant structure chosen by the serde
derives on `Database`, `Interval` and `IntervalType` — is modelled
explicitly. -/
inductive Json where
  | str : String → Json
  | arr : List Json → Json
  | obj : List (String × Json) → Json

/-- Serialization of a timestamp: the ISO-8601 string. -/
def printTs (t : ℤ) : String := String.mk (printTsChars t)

/-- Deserialization of a timestamp string. -/
def parseTs (s : String) : Option ℤ := parseTsChars s.data

/-- The serde rendering of the `IntervalType` unit variants. -/
def IntervalType.toJson : IntervalType → Json
  | IntervalType.Focus => Json.str ("Focus")
  | IntervalType.Idle => Json.str ("Idle")

/-- The serde reading of an `IntervalType` enumerant. -/
def IntervalType.fromJson : Json → Option IntervalType
  | Json.str s =>
    if s = ("Focus") then some IntervalType.Focus
    else if s = ("Idle") then some IntervalType.Idle
    else none
  | _ => none

/-- The serde rendering of an `Interval`: an object with the `start`,
`end` and `kind` fields in declaration order. -/
def Interval.toJson (i : Interval) : Json :=
  Json.obj [(("start"), Json.str (printTs i.start)),
            (("end"), Json.str (printTs i.«end»)),
            (("kind"), i.kind.toJson)]

/-- The serde reading of an `Interval` object. -/
def Interval.fromJson : Json → Option Interval
  | Json.obj [(ks, Json.str s), (ke, Json.str e), (kk, k)] =>
    if ks = ("start") ∧ ke = ("end") ∧ kk = ("kind") then
      (parseTs s).bind fun (ts : ℤ) =>
      (parseTs e).bind fun (te : ℤ) =>
      (IntervalType.fromJson k).bind fun (tk : IntervalType) =>
      some { start := ts, «end» := te, kind := tk }
    else none
  | _ => none

/-- The serde rendering of the `Database` document. -/
def Database.toJson (db : Database) : Json :=
  Json.obj [(("intervals"), Json.arr (db.intervals.map Interval.toJson))]

/-- The serde reading of a `Database` document. -/
def Database.fromJson : Json → Option Database
  | Json.obj [(ki, Json.arr l)] =>
    if ki = ("intervals") then
      (l.mapM Interval.fromJson).bind fun (is : List Interval) => some ⟨is⟩
    else none
  | _ => none

/-- The method `Storage::save` (src/storage.rs lines 44-50): serialize the database
and write it atomically; modelled as producing the document written. -/
def Storage.save (db : Database) : Json := db.toJson

/-- The method `Storage::load` (src/storage.rs lines 35-42) on an existing file:
parse the stored document; a malformed document is a deserialization
error, modelled as `none`. -/
def Storage.load (j : Json) : Option Database := Database.fromJson j

lemma intervalType_fromJson_toJson (k : IntervalType) :
    IntervalType.fromJson k.toJson = some k := by
  cases k <;> decide

lemma interval_fromJson_toJson (i : Interval)
    (hs : TsInRange i.start) (he : TsInRange i.«end») :
    Interval.fromJson i.toJson = some i := by
  unfold Interval.toJson Interval.fromJson
  show (if (("start" : String) = ("start") ∧ ("end" : String) = ("end") ∧
        ("kind" : String) = ("kind")) then
      (parseTs (printTs i.start)).bind fun (ts : ℤ) =>
      (parseTs (printTs i.«end»)).bind fun (te : ℤ) =>
      (IntervalType.fromJson i.kind.toJson).bind fun (tk : IntervalType) =>
      some { start := ts, «end» := te, kind := tk }
    else none) = some i
  rw [if_pos ⟨rfl, rfl, rfl⟩]
  have hps : parseTs (printTs i.start) = some i.start := by
    unfold parseTs printTs
    rw [show (String.mk (printTsChars i.start)).data = printTsChars i.start from rfl]
    exact parseTs_printTs_roundtrip _ hs
  have hpe : parseTs (printTs i.«end») = some i.«end» := by
    unfold parseTs printTs
    rw [show (String.mk (printTsChars i.«end»)).data = printTsChars i.«end» from rfl]
    exact parseTs_printTs_roundtrip _ he
  rw [hps, hpe, intervalType_fromJson_toJson]
  rfl

lemma mapM_interval_roundtrip : ∀ (l : List Interval),
    (∀ i ∈ l, TsInRange i.start ∧ TsInRange i.«end») →
    (l.map Interval.toJson).mapM Interval.fromJson = some l
  | [], _ => rfl
  | i :: l, h => by
    have hi := h i (List.mem_cons_self i l)
    have hl := mapM_interval_roundtrip l fun j hj => h j (List.mem_cons_of_mem i hj)
    rw [List.map_cons, List.mapM_cons, interval_fromJson_toJson i hi.1 hi.2, hl]
    rfl

/-- C8: `save` followed by `load` reproduces an identical ordered
interval log — every interval's `start`, `end` and `kind` survive the
round trip in order — for every log whose timestamps chrono can render
with a four-digit year (from the epoch up to year 10000; `Utc::now()`
timestamps always are). -/
theorem C8_save_load_roundtrip (db : Database)
    (h : ∀ i ∈ db.intervals, TsInRange i.start ∧ TsInRange i.«end») :
    Storage.load (Storage.save db) = some db := by
  unfold Storage.load Storage.save Database.toJson Database.fromJson
  show (if ("intervals" : String) = ("intervals") then
      ((db.intervals.map Interval.toJson).mapM Interval.fromJson).bind
        fun (is : List Interval) => some (⟨is⟩ : Database)
    else none) = some db
  rw [if_pos rfl, mapM_interval_roundtrip db.intervals h]
  rfl

theorem C8_save_load_roundtrip_witness :
    (∀ i ∈ (⟨[⟨0, 1000000000, IntervalType.Focus⟩,
              ⟨1000000000, 1000000000, IntervalType.Idle⟩]⟩ : Database).intervals,
      TsInRange i.start ∧ TsInRange i.«end») ∧
    Storage.load (Storage.save ⟨[⟨0, 1000000000, IntervalType.Focus⟩,
      ⟨1000000000, 1000000000, IntervalType.Idle⟩]⟩) =
      some ⟨[⟨0, 1000000000, IntervalType.Focus⟩,
             ⟨1000000000, 1000000000, IntervalType.Idle⟩]⟩ :=
  ⟨by decide,
   C8_save_load_roundtrip ⟨[⟨0, 1000000000, IntervalType.Focus⟩,
     ⟨1000000000, 1000000000, IntervalType.Idle⟩]⟩ (by decide)⟩

end Neflo
